import Mathlib

/-!
Shallow embedding of the `backoff` Go package (Fibonacci retry engine).

Durations (`time.Duration`) are 64-bit signed integers; all duration
arithmetic wraps modulo 2^64 into the range [-2^63, 2^63).  The engine
state is the `Backoff` record; the do/retry loop of `run`, `next` and
`sleep` is embedded as one iteration function `loopIter` driven by a
fuel-bounded recursion `runLoop`.  Operations are modelled as functions
from the 1-based invocation index to an optional error code.  The engine's
own cancellation context (created by `context.WithCancel` in `New`) is
modelled by a done flag: `doRun` takes it as it stands at entry, and the
stateful layer `BackoffCtx.call` additionally records the deferred
`b.cancel()` that `done()` runs when a call returns, together with the
counter and generator state the loop leaves in the engine.
-/

/-- Two's-complement wraparound into the `int64` range, the semantics of
Go arithmetic on `time.Duration`. -/
def wrap64 (x : Int) : Int := (x + 2 ^ 63) % 2 ^ 64 - 2 ^ 63

/-- `DefaultInterval = 500 * time.Millisecond`, in nanoseconds. -/
def DefaultInterval : Int := 500 * 1000000

/-- The internal state `(a, b)` of the closure returned by `fibonacci()`. -/
structure FibState where
  a : Int
  b : Int
deriving DecidableEq

/-- Initial generator state: `var a time.Duration; b time.Duration = 1`. -/
def fibInit : FibState := ⟨0, 1⟩

/-- One call of the generator closure: `a, b = b, a+b; return a`,
with int64 wraparound on the sum. -/
def fibStep (s : FibState) : Int × FibState :=
  (s.b, ⟨s.b, wrap64 (s.a + s.b)⟩)

/-- The generator state after `n` calls. -/
def fibIter (s : FibState) : Nat → FibState
  | 0 => s
  | n + 1 => fibIter (fibStep s).2 n

/-- The value returned by the `n`-th call (1-based) of a fresh generator. -/
def fibNth (n : Nat) : Int := (fibStep (fibIter fibInit (n - 1))).1

/-- The error component of a run's outcome. -/
inductive RunError where
  /-- The operation's own error, passed through unwrapped. -/
  | opError (code : Nat)
  /-- `ErrRetry` / `newErrRetry(err)`: maximum attempts or duration bound
  exceeded, wrapping the last operation error when one exists. -/
  | retryExhausted (last : Option Nat)
  /-- `ErrDeadlineExceeded`: the context was done. -/
  | deadlineExceeded
  /-- `context.Canceled`, returned for a nil generator. -/
  | canceled
deriving DecidableEq

/-- Result of a whole `Do`/`Retry` call: the attempt counter at the end,
the returned error (`none` for a nil error) and the number of times the
operation was invoked. -/
structure Outcome where
  attempts : Nat
  error : Option RunError
  calls : Nat
deriving DecidableEq

/-- The engine state: the generator (`none` models a nil `funcAlgorithm`),
the attempt counter and the configured ceiling and interval. -/
structure Backoff where
  fib : Option FibState
  attempt : Nat
  maxAttempt : Nat
  interval : Int
deriving DecidableEq

/-- `newBackoff()`: default interval, fresh generator, zero counters. -/
def newBackoff : Backoff := ⟨some fibInit, 0, 0, DefaultInterval⟩

/-- A Go zero-value `Backoff`: nil generator, zero fields. -/
def zeroBackoff : Backoff := ⟨none, 0, 0, 0⟩

/-- An engine as configured by `New` followed by `WithInterval`/`WithMaxAttempt`. -/
def mkBackoff (iv : Int) (ma : Nat) : Backoff := ⟨some fibInit, 0, ma, iv⟩

/-- `Attempt()`. -/
def Backoff.Attempt (b : Backoff) : Nat := b.attempt

/-- `Reset()`: zero the attempt counter and reinstall a fresh generator. -/
def Backoff.Reset (b : Backoff) : Backoff :=
  { b with attempt := 0, fib := some fibInit }

/-- `WithInterval(d)`: set the interval when `d > 0`, no-op otherwise. -/
def Backoff.WithInterval (b : Backoff) (d : Int) : Backoff :=
  if 0 < d then { b with interval := d } else b

/-- `WithMaxAttempt(n)`: set the ceiling when `n > -1`, no-op otherwise. -/
def Backoff.WithMaxAttempt (b : Backoff) (n : Int) : Backoff :=
  if -1 < n then { b with maxAttempt := n.toNat } else b

/-- `copy()`: a fresh engine sharing only the interval and ceiling. -/
def Backoff.copy (b : Backoff) : Backoff :=
  { newBackoff with interval := b.interval, maxAttempt := b.maxAttempt }

set_option linter.unusedVariables false in
/-- `WithDeadline(t)`: returns the (unmodified) receiver and the derived
engine, a fresh copy whose context is bounded by `t`. -/
def Backoff.WithDeadline (b : Backoff) (t : Int) : Backoff × Backoff :=
  (b, b.copy)

/-- The stop condition of the `switch` in `run`:
`!retry && err != nil` or `retry && err == nil`. -/
def stopCond (retry : Bool) (err : Option Nat) : Bool :=
  if retry then err.isNone else err.isSome

/-- The loop-local state of one `run`: the generator state, the attempt
counter and the 1-based index of the next invocation. -/
structure LoopState where
  fib : FibState
  attempt : Nat
  call : Nat
deriving DecidableEq

/-- One iteration of the loop in `run`: invoke the operation; stop with
its error when the mode's stop condition holds; otherwise `next()`
increments the attempt counter and fails when the ceiling is set and
reached, then `sleep()` fails when the next duration wraps negative;
otherwise continue with the advanced state. -/
def loopIter (retry : Bool) (f : Nat → Option Nat) (ma : Nat) (iv : Int)
    (s : LoopState) : Outcome ⊕ LoopState :=
  if stopCond retry (f s.call) then
    .inl ⟨s.attempt, (f s.call).map RunError.opError, s.call⟩
  else if 0 < ma ∧ ma ≤ s.attempt + 1 then
    .inl ⟨s.attempt + 1, some (.retryExhausted (f s.call)), s.call⟩
  else if wrap64 ((fibStep s.fib).1 * iv) < 0 then
    .inl ⟨s.attempt + 1, some (.retryExhausted (f s.call)), s.call⟩
  else
    .inr ⟨(fibStep s.fib).2, s.attempt + 1, s.call + 1⟩

/-- Fuel-bounded unfolding of the loop in `run`; `none` means the run has
not terminated within `fuel` iterations. -/
def runLoop (retry : Bool) (f : Nat → Option Nat) (ma : Nat) (iv : Int) :
    LoopState → Nat → Option Outcome
  | _, 0 => none
  | s, fuel + 1 =>
    match loopIter retry f ma iv s with
    | .inl o => some o
    | .inr s' => runLoop retry f ma iv s' fuel

/-- The continuation taken by an iteration whose stop condition fails:
`next()` then `sleep()` then the next iteration. -/
def contStep (retry : Bool) (f : Nat → Option Nat) (ma : Nat) (iv : Int)
    (s : LoopState) (fuel : Nat) : Option Outcome :=
  if 0 < ma ∧ ma ≤ s.attempt + 1 then
    some ⟨s.attempt + 1, some (.retryExhausted (f s.call)), s.call⟩
  else if wrap64 ((fibStep s.fib).1 * iv) < 0 then
    some ⟨s.attempt + 1, some (.retryExhausted (f s.call)), s.call⟩
  else
    runLoop retry f ma iv ⟨(fibStep s.fib).2, s.attempt + 1, s.call + 1⟩ fuel

/-- A whole `Do` (`retry = false`) or `Retry` (`retry = true`) call:
a nil generator returns the current attempt count with `context.Canceled`;
a context already done at entry wins the race in `done()` before any
invocation; otherwise the loop runs from the current engine state. -/
def doRun (ctxDone : Bool) (b : Backoff) (retry : Bool)
    (f : Nat → Option Nat) (fuel : Nat) : Option Outcome :=
  match b.fib with
  | none => some ⟨b.attempt, some .canceled, 0⟩
  | some fs =>
    if ctxDone then some ⟨b.attempt, some .deadlineExceeded, 0⟩
    else runLoop retry f b.maxAttempt b.interval ⟨fs, b.attempt, 1⟩ fuel

/-- `Do(f)`. -/
def Backoff.Do (b : Backoff) (ctxDone : Bool) (f : Nat → Option Nat)
    (fuel : Nat) : Option Outcome :=
  doRun ctxDone b false f fuel

/-- `Retry(f)`. -/
def Backoff.Retry (b : Backoff) (ctxDone : Bool) (f : Nat → Option Nat)
    (fuel : Nat) : Option Outcome :=
  doRun ctxDone b true f fuel

/-- The loop of `run` again, now also returning the loop state the engine
holds when the run ends: a stop on the mode's predicate leaves the counter
and generator as they are; a ceiling stop in `next()` has incremented the
counter; an overflow stop has additionally consumed one generator value,
since `sleep()` calls `b.fib()` before the sign check. -/
def runLoopSt (retry : Bool) (f : Nat → Option Nat) (ma : Nat) (iv : Int) :
    LoopState → Nat → Option (Outcome × LoopState)
  | _, 0 => none
  | s, fuel + 1 =>
    if stopCond retry (f s.call) then
      some (⟨s.attempt, (f s.call).map RunError.opError, s.call⟩, s)
    else if 0 < ma ∧ ma ≤ s.attempt + 1 then
      some (⟨s.attempt + 1, some (.retryExhausted (f s.call)), s.call⟩,
        ⟨s.fib, s.attempt + 1, s.call⟩)
    else if wrap64 ((fibStep s.fib).1 * iv) < 0 then
      some (⟨s.attempt + 1, some (.retryExhausted (f s.call)), s.call⟩,
        ⟨(fibStep s.fib).2, s.attempt + 1, s.call⟩)
    else
      runLoopSt retry f ma iv ⟨(fibStep s.fib).2, s.attempt + 1, s.call + 1⟩ fuel

/-- An engine paired with the done flag of its own cancellation context,
the pair built by `New` via `context.WithCancel`: the flag is set once the
parent is done, the deadline fires, or `cancel()` runs. -/
structure BackoffCtx where
  engine : Backoff
  ctxDone : Bool
deriving DecidableEq

/-- `New(ctx)` under a live parent context: fresh engine, live own context. -/
def NewBackoff : BackoffCtx := ⟨newBackoff, false⟩

/-- `Reset()` on the engine with its context: only the mutex-guarded counter
and generator are restored; the context and its cancel function are not. -/
def BackoffCtx.Reset (b : BackoffCtx) : BackoffCtx := ⟨b.engine.Reset, b.ctxDone⟩

/-- A whole `Do` (`retry = false`) or `Retry` (`retry = true`) call on the
engine with its context.  The nil-generator guard returns before `done()`
runs, so nothing is cancelled there; on every other completed call the
deferred `b.cancel()` in `done()` has fired by the time the call returns,
leaving the engine's own context done.  When the context is done at entry
the loop writes nothing back; otherwise the loop's final counter and
generator state are the engine's. -/
def BackoffCtx.call (b : BackoffCtx) (retry : Bool) (f : Nat → Option Nat)
    (fuel : Nat) : Option (Outcome × BackoffCtx) :=
  match b.engine.fib with
  | none => some (⟨b.engine.attempt, some .canceled, 0⟩, b)
  | some fs =>
    if b.ctxDone then
      some (⟨b.engine.attempt, some .deadlineExceeded, 0⟩, ⟨b.engine, true⟩)
    else
      (runLoopSt retry f b.engine.maxAttempt b.engine.interval
          ⟨fs, b.engine.attempt, 1⟩ fuel).map
        (fun r => (r.1, ⟨⟨some r.2.fib, r.2.attempt, b.engine.maxAttempt,
          b.engine.interval⟩, true⟩))

/-! ### Helper lemmas about the loop -/

theorem runLoop_succ (retry : Bool) (f : Nat → Option Nat) (ma : Nat) (iv : Int)
    (s : LoopState) (fuel : Nat) :
    runLoop retry f ma iv s (fuel + 1) =
      match loopIter retry f ma iv s with
      | .inl o => some o
      | .inr s' => runLoop retry f ma iv s' fuel := rfl

theorem loopIter_stop (retry : Bool) (f : Nat → Option Nat) (ma : Nat) (iv : Int)
    (s : LoopState) (h : stopCond retry (f s.call) = true) :
    loopIter retry f ma iv s =
      .inl ⟨s.attempt, (f s.call).map RunError.opError, s.call⟩ := by
  simp [loopIter, h]

theorem runLoop_cont (retry : Bool) (f : Nat → Option Nat) (ma : Nat) (iv : Int)
    (s : LoopState) (fuel : Nat) (h : stopCond retry (f s.call) = false) :
    runLoop retry f ma iv s (fuel + 1) = contStep retry f ma iv s fuel := by
  rw [runLoop_succ]
  simp only [loopIter, h, Bool.false_eq_true, if_false]
  unfold contStep
  split_ifs <;> rfl

/-! ### Claims -/

/-- C1: a `Do` run stops and returns the operation's error, with the attempt
count at that point, exactly when the operation returns a non-nil error;
a `Retry` run stops and returns nil exactly when the operation returns a
nil error; in all other outcomes of an invocation the loop continues with
`next()`/`sleep()`. -/
theorem do_retry_stop_condition (f : Nat → Option Nat) (ma : Nat) (iv : Int)
    (s : LoopState) (fuel : Nat) :
    ((∀ e, f s.call = some e →
        runLoop false f ma iv s (fuel + 1) =
          some ⟨s.attempt, some (.opError e), s.call⟩)
      ∧ (f s.call = none →
        runLoop false f ma iv s (fuel + 1) = contStep false f ma iv s fuel))
    ∧ ((f s.call = none →
        runLoop true f ma iv s (fuel + 1) = some ⟨s.attempt, none, s.call⟩)
      ∧ (∀ e, f s.call = some e →
        runLoop true f ma iv s (fuel + 1) = contStep true f ma iv s fuel)) := by
  refine ⟨⟨?_, ?_⟩, ?_, ?_⟩
  · intro e h
    have hs : stopCond false (f s.call) = true := by simp [stopCond, h]
    rw [runLoop_succ, loopIter_stop false f ma iv s hs, h]
    rfl
  · intro h
    exact runLoop_cont false f ma iv s fuel (by simp [stopCond, h])
  · intro h
    have hs : stopCond true (f s.call) = true := by simp [stopCond, h]
    rw [runLoop_succ, loopIter_stop true f ma iv s hs, h]
    rfl
  · intro e h
    exact runLoop_cont true f ma iv s fuel (by simp [stopCond, h])

theorem do_retry_stop_condition_witness :
    runLoop false (fun _ => some 5) 0 1 ⟨fibInit, 0, 1⟩ 3 =
      some ⟨0, some (.opError 5), 1⟩
    ∧ runLoop true (fun _ => none) 0 1 ⟨fibInit, 0, 1⟩ 3 = some ⟨0, none, 1⟩ :=
  ⟨(do_retry_stop_condition (fun _ => some 5) 0 1 ⟨fibInit, 0, 1⟩ 2).1.1 5 rfl,
   (do_retry_stop_condition (fun _ => none) 0 1 ⟨fibInit, 0, 1⟩ 2).2.1 rfl⟩

theorem runLoopSt_fst (retry : Bool) (f : Nat → Option Nat) (ma : Nat)
    (iv : Int) :
    ∀ (fuel : Nat) (s : LoopState),
      (runLoopSt retry f ma iv s fuel).map Prod.fst =
        runLoop retry f ma iv s fuel := by
  intro fuel
  induction fuel with
  | zero => intro s; rfl
  | succ m ih =>
    intro s
    rw [runLoop_succ]
    unfold runLoopSt loopIter
    split_ifs <;> simp [ih]

theorem call_eq_of_fib_some (b : BackoffCtx) (retry : Bool)
    (f : Nat → Option Nat) (fuel : Nat) (fs : FibState)
    (hfs : b.engine.fib = some fs) :
    b.call retry f fuel =
      if b.ctxDone then
        some (⟨b.engine.attempt, some .deadlineExceeded, 0⟩, ⟨b.engine, true⟩)
      else
        (runLoopSt retry f b.engine.maxAttempt b.engine.interval
            ⟨fs, b.engine.attempt, 1⟩ fuel).map
          (fun r => (r.1, ⟨⟨some r.2.fib, r.2.attempt, b.engine.maxAttempt,
            b.engine.interval⟩, true⟩)) := by
  unfold BackoffCtx.call
  rw [hfs]

theorem doRun_eq_of_fib_some (cd : Bool) (b : Backoff) (retry : Bool)
    (f : Nat → Option Nat) (fuel : Nat) (fs : FibState)
    (hfs : b.fib = some fs) :
    doRun cd b retry f fuel =
      if cd then some ⟨b.attempt, some .deadlineExceeded, 0⟩
      else runLoop retry f b.maxAttempt b.interval ⟨fs, b.attempt, 1⟩ fuel := by
  unfold doRun
  rw [hfs]

theorem call_fst_doRun (b : BackoffCtx) (retry : Bool) (f : Nat → Option Nat)
    (fuel : Nat) :
    (b.call retry f fuel).map Prod.fst =
      doRun b.ctxDone b.engine retry f fuel := by
  cases hfs : b.engine.fib with
  | none =>
    unfold BackoffCtx.call doRun
    rw [hfs]
    rfl
  | some fs =>
    rw [call_eq_of_fib_some b retry f fuel fs hfs,
      doRun_eq_of_fib_some b.ctxDone b.engine retry f fuel fs hfs]
    by_cases hcd : b.ctxDone = true
    · rw [if_pos hcd, if_pos hcd]
      rfl
    · rw [if_neg hcd, if_neg hcd,
        ← runLoopSt_fst retry f b.engine.maxAttempt b.engine.interval fuel
          ⟨fs, b.engine.attempt, 1⟩]
      cases runLoopSt retry f b.engine.maxAttempt b.engine.interval
          ⟨fs, b.engine.attempt, 1⟩ fuel with
      | none => rfl
      | some p => rfl

/-- C3 (counterexample): after a completed `Do` run and a `Reset()`, the
next `Do` on the same instance returns the deadline error with zero
operation invocations, while a freshly constructed engine invokes the
operation and passes its error through: `Reset` does not make the engine
behave as a fresh one, because the run's `done()` cancelled the engine's
own context and `Reset` does not restore it. -/
theorem reset_not_ready_for_reuse_cex :
    ((NewBackoff.call false (fun _ => some 7) 5).bind
        (fun r => (r.2.Reset.call false (fun _ => some 7) 5).map Prod.fst))
      = some ⟨0, some .deadlineExceeded, 0⟩
    ∧ (NewBackoff.call false (fun _ => some 7) 5).map Prod.fst
      = some ⟨0, some (.opError 7), 1⟩
    ∧ some (Outcome.mk 0 (some .deadlineExceeded) 0) ≠
        some (Outcome.mk 0 (some (.opError 7)) 1) := by
  decide

/-- C3 (amended): after a `Do` or `Retry` run on an engine with a live
generator reaches its terminal outcome, `Reset()` does return the engine to
attempt 0 with a fresh Fibonacci generator, but the engine's own context —
cancelled by `done()`'s deferred `b.cancel()` when the run completed — is
not restored: every subsequent `Do` or `Retry` run on the same instance
returns attempts = 0 with the deadline-exceeded error and never invokes the
operation, instead of behaving as a freshly constructed engine. -/
theorem reset_after_run_context_stays_done (b : BackoffCtx) (retry : Bool)
    (f : Nat → Option Nat) (fuel : Nat) (o : Outcome) (b1 : BackoffCtx)
    (hfib : b.engine.fib.isSome = true)
    (hrun : b.call retry f fuel = some (o, b1)) :
    b1.ctxDone = true
    ∧ (b1.Reset).engine.Attempt = 0
    ∧ (b1.Reset).engine.fib = some fibInit
    ∧ ∀ (retry' : Bool) (g : Nat → Option Nat) (fuel' : Nat),
        (b1.Reset).call retry' g fuel' =
          some (⟨0, some .deadlineExceeded, 0⟩, ⟨(b1.Reset).engine, true⟩) := by
  obtain ⟨fs, hfs⟩ := Option.isSome_iff_exists.mp hfib
  obtain ⟨e1, cd1⟩ := b1
  have hdone : cd1 = true := by
    rw [call_eq_of_fib_some b retry f fuel fs hfs] at hrun
    by_cases hcd : b.ctxDone = true
    · rw [if_pos hcd] at hrun
      simp only [Option.some.injEq, Prod.mk.injEq] at hrun
      exact (congrArg BackoffCtx.ctxDone hrun.2).symm
    · rw [if_neg hcd] at hrun
      cases hr : runLoopSt retry f b.engine.maxAttempt b.engine.interval
          ⟨fs, b.engine.attempt, 1⟩ fuel with
      | none => rw [hr] at hrun; cases hrun
      | some p =>
        rw [hr] at hrun
        simp only [Option.map_some', Option.some.injEq, Prod.mk.injEq] at hrun
        exact (congrArg BackoffCtx.ctxDone hrun.2).symm
  subst hdone
  exact ⟨rfl, rfl, rfl, fun _ _ _ => rfl⟩

theorem reset_after_run_context_stays_done_witness :
    (BackoffCtx.Reset ⟨⟨some fibInit, 0, 0, DefaultInterval⟩, true⟩).call
        false (fun _ => none) 3 =
      some (⟨0, some .deadlineExceeded, 0⟩,
        ⟨(BackoffCtx.Reset
            ⟨⟨some fibInit, 0, 0, DefaultInterval⟩, true⟩).engine, true⟩) :=
  (reset_after_run_context_stays_done NewBackoff false (fun _ => some 7) 5
      ⟨0, some (.opError 7), 1⟩ ⟨⟨some fibInit, 0, 0, DefaultInterval⟩, true⟩
      rfl (by decide)).2.2.2 false (fun _ => none) 3

/-- C5: whenever the next sleep duration (Fibonacci term times interval in
64-bit arithmetic) wraps negative, the run does not sleep: it terminates at
once with a retry-exhausted error wrapping the last operation error when
one exists. -/
theorem sleep_overflow_exhausts (retry : Bool) (f : Nat → Option Nat)
    (ma : Nat) (iv : Int) (s : LoopState) (fuel : Nat)
    (hstop : stopCond retry (f s.call) = false)
    (hma : ¬(0 < ma ∧ ma ≤ s.attempt + 1))
    (hneg : wrap64 ((fibStep s.fib).1 * iv) < 0) :
    runLoop retry f ma iv s (fuel + 1) =
      some ⟨s.attempt + 1, some (.retryExhausted (f s.call)), s.call⟩ := by
  rw [runLoop_cont retry f ma iv s fuel hstop]
  unfold contStep
  rw [if_neg hma, if_pos hneg]

theorem sleep_overflow_exhausts_witness :
    runLoop true (fun _ => some 1) 0 (2 ^ 62) ⟨⟨1, 2⟩, 1, 2⟩ 4 =
      some ⟨2, some (.retryExhausted (some 1)), 2⟩ :=
  sleep_overflow_exhausts true (fun _ => some 1) 0 (2 ^ 62) ⟨⟨1, 2⟩, 1, 2⟩ 3
    (by decide) (by decide) (by decide)

/-- C6: when the engine's cancellation scope is already done at entry, `Do`
and `Retry` return attempts = 0 with the deadline-exceeded error, without
ever invoking the operation. -/
theorem done_at_entry_no_invocation (b : Backoff) (f : Nat → Option Nat)
    (fuel : Nat) (hfib : b.fib.isSome = true) (h0 : b.attempt = 0) :
    b.Do true f fuel = some ⟨0, some .deadlineExceeded, 0⟩
    ∧ b.Retry true f fuel = some ⟨0, some .deadlineExceeded, 0⟩ := by
  obtain ⟨fs, hfs⟩ := Option.isSome_iff_exists.mp hfib
  constructor <;> simp [Backoff.Do, Backoff.Retry, doRun, hfs, h0]

theorem done_at_entry_no_invocation_witness :
    newBackoff.Do true (fun _ => none) 4 = some ⟨0, some .deadlineExceeded, 0⟩
    ∧ newBackoff.Retry true (fun _ => none) 4 =
        some ⟨0, some .deadlineExceeded, 0⟩ :=
  done_at_entry_no_invocation newBackoff (fun _ => none) 4 rfl rfl

/-- C8: `WithDeadline` does not mutate the receiver; the derived engine is a
fresh instance with attempt 0 and a fresh generator, sharing only the
configured interval and ceiling, and it runs exactly like a freshly
configured engine. -/
theorem withDeadline_no_mutation (b : Backoff) (t : Int) :
    (b.WithDeadline t).1 = b
    ∧ (b.WithDeadline t).2.attempt = 0
    ∧ (b.WithDeadline t).2.fib = some fibInit
    ∧ (b.WithDeadline t).2.interval = b.interval
    ∧ (b.WithDeadline t).2.maxAttempt = b.maxAttempt
    ∧ ∀ (cd : Bool) (f : Nat → Option Nat) (fuel : Nat),
        (b.WithDeadline t).2.Do cd f fuel =
          (mkBackoff b.interval b.maxAttempt).Do cd f fuel :=
  ⟨rfl, rfl, rfl, rfl, rfl, fun _ _ _ => rfl⟩

/-- C9: each step of the loop either leaves the attempt counter unchanged or
increments it by exactly one — it is monotonically non-decreasing within a
run — and only an explicit `Reset()` sets it back to 0. -/
theorem attempt_monotone_step (retry : Bool) (f : Nat → Option Nat)
    (ma : Nat) (iv : Int) (s : LoopState) :
    (∀ o : Outcome, loopIter retry f ma iv s = .inl o →
        o.attempts = s.attempt ∨ o.attempts = s.attempt + 1)
    ∧ (∀ s' : LoopState, loopIter retry f ma iv s = .inr s' →
        s'.attempt = s.attempt + 1)
    ∧ ∀ b : Backoff, (Backoff.Reset b).Attempt = 0 := by
  refine ⟨?_, ?_, fun _ => rfl⟩
  · intro o h
    unfold loopIter at h
    split_ifs at h <;> cases h <;> simp
  · intro s' h
    unfold loopIter at h
    split_ifs at h
    cases h
    rfl

theorem attempt_monotone_step_witness :
    (Outcome.mk 0 (some (.opError 1)) 1).attempts =
      (LoopState.mk fibInit 0 1).attempt
    ∨ (Outcome.mk 0 (some (.opError 1)) 1).attempts =
      (LoopState.mk fibInit 0 1).attempt + 1 :=
  (attempt_monotone_step false (fun _ => some 1) 0 1 ⟨fibInit, 0, 1⟩).1
    ⟨0, some (.opError 1), 1⟩ (by decide)

/-- C10: on an engine whose generator is nil (for instance the zero value,
not built by `New`), `Do` and `Retry` return the current attempt count with
`context.Canceled`, without spawning the loop or invoking the operation. -/
theorem nil_generator_returns_canceled (b : Backoff) (cd : Bool)
    (f : Nat → Option Nat) (fuel : Nat) (h : b.fib = none) :
    b.Do cd f fuel = some ⟨b.attempt, some .canceled, 0⟩
    ∧ b.Retry cd f fuel = some ⟨b.attempt, some .canceled, 0⟩ := by
  constructor <;> simp [Backoff.Do, Backoff.Retry, doRun, h]

theorem nil_generator_returns_canceled_witness :
    zeroBackoff.Do false (fun _ => none) 3 = some ⟨0, some .canceled, 0⟩
    ∧ zeroBackoff.Retry false (fun _ => none) 3 =
        some ⟨0, some .canceled, 0⟩ :=
  nil_generator_returns_canceled zeroBackoff false (fun _ => none) 3 rfl

theorem contStep_ceiling (retry : Bool) (f : Nat → Option Nat) (ma : Nat)
    (iv : Int) (s : LoopState) (fuel : Nat)
    (hma : 0 < ma ∧ ma ≤ s.attempt + 1) :
    contStep retry f ma iv s fuel =
      some ⟨s.attempt + 1, some (.retryExhausted (f s.call)), s.call⟩ := by
  unfold contStep
  rw [if_pos hma]

theorem contStep_advance (retry : Bool) (f : Nat → Option Nat) (ma : Nat)
    (iv : Int) (s : LoopState) (fuel : Nat)
    (hma : ¬(0 < ma ∧ ma ≤ s.attempt + 1))
    (hov : ¬ wrap64 ((fibStep s.fib).1 * iv) < 0) :
    contStep retry f ma iv s fuel =
      runLoop retry f ma iv ⟨(fibStep s.fib).2, s.attempt + 1, s.call + 1⟩ fuel := by
  unfold contStep
  rw [if_neg hma, if_neg hov]

theorem runLoop_retry_reaches_success (f : Nat → Option Nat) (ma : Nat) (iv : Int) :
    ∀ (j : Nat) (s : FibState) (a c fuel : Nat),
      j + 1 ≤ fuel →
      (∀ i, i < j → f (c + i) ≠ none) →
      f (c + j) = none →
      (ma = 0 ∨ a + j < ma) →
      (∀ i, i < j → 0 ≤ wrap64 ((fibStep (fibIter s i)).1 * iv)) →
      runLoop true f ma iv ⟨s, a, c⟩ fuel = some ⟨a + j, none, c + j⟩ := by
  intro j
  induction j with
  | zero =>
    intro s a c fuel hfuel _ hsucc _ _
    obtain ⟨m, rfl⟩ : ∃ m, fuel = m + 1 := ⟨fuel - 1, by omega⟩
    have h : f c = none := by simpa using hsucc
    have hs : stopCond true (f c) = true := by simp [stopCond, h]
    rw [runLoop_succ, loopIter_stop true f ma iv ⟨s, a, c⟩ hs]
    simp [h]
  | succ j ih =>
    intro s a c fuel hfuel hfail hsucc hma hov
    obtain ⟨m, rfl⟩ : ∃ m, fuel = m + 1 := ⟨fuel - 1, by omega⟩
    have h0 : f c ≠ none := by simpa using hfail 0 (by omega)
    have hs : stopCond true (f c) = false := by
      cases hfc : f c with
      | none => exact absurd hfc h0
      | some e => simp [stopCond, hfc]
    rw [runLoop_cont true f ma iv ⟨s, a, c⟩ m hs,
      contStep_advance true f ma iv ⟨s, a, c⟩ m
        (show ¬(0 < ma ∧ ma ≤ a + 1) by
          rintro ⟨h1', h2'⟩
          rcases hma with h | h <;> omega)
        (not_lt.mpr (hov 0 (by omega)))]
    have step := ih (fibStep s).2 (a + 1) (c + 1) m (by omega)
      (fun i hi => by
        have := hfail (i + 1) (by omega)
        rwa [show c + (i + 1) = c + 1 + i by omega] at this)
      (by rwa [show c + 1 + j = c + (j + 1) by omega])
      (by rcases hma with h | h
          · exact Or.inl h
          · right; omega)
      (fun i hi => hov (i + 1) (by omega))
    rw [show a + (j + 1) = a + 1 + j by omega,
      show c + (j + 1) = c + 1 + j by omega]
    exact step

theorem runLoop_hits_ceiling (retry : Bool) (f : Nat → Option Nat) (ma : Nat)
    (iv : Int) (hstop : ∀ i, stopCond retry (f i) = false) :
    ∀ (n : Nat) (s : FibState) (a c fuel : Nat),
      1 ≤ n → a + n = ma → n ≤ fuel →
      (∀ i, i + 1 < n → 0 ≤ wrap64 ((fibStep (fibIter s i)).1 * iv)) →
      runLoop retry f ma iv ⟨s, a, c⟩ fuel =
        some ⟨ma, some (.retryExhausted (f (c + n - 1))), c + n - 1⟩ := by
  intro n
  induction n with
  | zero => intro s a c fuel h1; omega
  | succ n ih =>
    intro s a c fuel h1 hma hfuel hov
    obtain ⟨m, rfl⟩ : ∃ m, fuel = m + 1 := ⟨fuel - 1, by omega⟩
    rw [runLoop_cont retry f ma iv ⟨s, a, c⟩ m (hstop c)]
    by_cases hn : n = 0
    · subst hn
      rw [contStep_ceiling retry f ma iv ⟨s, a, c⟩ m
        (show 0 < ma ∧ ma ≤ a + 1 from ⟨by omega, by omega⟩),
        show ma = a + 1 by omega]
      rfl
    · rw [contStep_advance retry f ma iv ⟨s, a, c⟩ m
        (show ¬(0 < ma ∧ ma ≤ a + 1) by rintro ⟨h1', h2'⟩; omega)
        (not_lt.mpr (hov 0 (by omega)))]
      have step := ih (fibStep s).2 (a + 1) (c + 1) m (by omega) (by omega)
        (by omega) (fun i hi => hov (i + 1) (by omega))
      rw [show c + (n + 1) - 1 = c + 1 + n - 1 by omega]
      exact step

theorem runLoop_unbounded_no_ceiling (retry : Bool) (f : Nat → Option Nat)
    (iv : Int) (hstop : ∀ i, stopCond retry (f i) = false) :
    ∀ (fuel : Nat) (s : FibState) (a c : Nat),
      (∀ i, i < fuel → 0 ≤ wrap64 ((fibStep (fibIter s i)).1 * iv)) →
      runLoop retry f 0 iv ⟨s, a, c⟩ fuel = none := by
  intro fuel
  induction fuel with
  | zero => intro s a c _; rfl
  | succ m ih =>
    intro s a c hov
    rw [runLoop_cont retry f 0 iv ⟨s, a, c⟩ m (hstop c),
      contStep_advance retry f 0 iv ⟨s, a, c⟩ m (by simp)
        (not_lt.mpr (hov 0 (by omega)))]
    exact ih (fibStep s).2 (a + 1) (c + 1) (fun i hi => hov (i + 1) (by omega))

/-- C2 (counterexample): `Do` on an operation that fails its first call and
succeeds on the second (k = 2) stops at the first error with attempts = 0
and that error, not with attempts = k - 1 = 1 and a nil error. -/
theorem do_stops_on_first_error_cex :
    (newBackoff.Do false (fun i => if i < 2 then some 7 else none) 5).map
        (fun o => (o.attempts, o.error)) = some (0, some (.opError 7))
    ∧ ((0 : Nat), some (RunError.opError 7)) ≠
        ((1 : Nat), (none : Option RunError)) := by
  decide

/-- C2 (amended): it is `Retry`, not `Do`, that runs the operation
repeatedly and stops successfully as soon as the operation returns no
error: on an operation failing its first k-1 calls and succeeding on the
kth, `Retry` returns attempts = k - 1 and a nil error, provided
k - 1 < maxAttempt or maxAttempt is unbounded and no intermediate sleep
duration wraps negative. -/
theorem retry_succeeds_on_kth (f : Nat → Option Nat) (ma : Nat) (iv : Int)
    (k fuel : Nat) (hk : 1 ≤ k) (hfuel : k ≤ fuel)
    (hfail : ∀ i, i < k → 1 ≤ i → f i ≠ none)
    (hsucc : f k = none)
    (hma : ma = 0 ∨ k - 1 < ma)
    (hov : ∀ i, i < k → 1 ≤ i → 0 ≤ wrap64 (fibNth i * iv)) :
    (mkBackoff iv ma).Retry false f fuel = some ⟨k - 1, none, k⟩ := by
  have hfail' : ∀ i, i < k - 1 → f (1 + i) ≠ none := fun i hi =>
    hfail (1 + i) (by omega) (by omega)
  have hsucc' : f (1 + (k - 1)) = none := by
    rw [show (1 : Nat) + (k - 1) = k by omega]
    exact hsucc
  have hma' : ma = 0 ∨ 0 + (k - 1) < ma := by
    rcases hma with h | h
    · exact Or.inl h
    · right; omega
  have hov' : ∀ i, i < k - 1 → 0 ≤ wrap64 ((fibStep (fibIter fibInit i)).1 * iv) :=
    fun i hi => hov (i + 1) (by omega) (by omega)
  have base := runLoop_retry_reaches_success f ma iv (k - 1) fibInit 0 1 fuel
    (by omega) hfail' hsucc' hma' hov'
  rw [show (0 : Nat) + (k - 1) = k - 1 by omega,
    show 1 + (k - 1) = k by omega] at base
  exact base

theorem retry_succeeds_on_kth_witness :
    (mkBackoff DefaultInterval 0).Retry false
      (fun i => if i < 3 then some 1 else none) 3 = some ⟨2, none, 3⟩ :=
  retry_succeeds_on_kth (fun i => if i < 3 then some 1 else none) 0
    DefaultInterval 3 3 (by decide) (by decide) (by decide) (by decide)
    (Or.inl rfl) (by decide)

/-- C4 (counterexample): with interval 2^62, maxAttempt 5 and an operation
that always fails, the Retry run stops after 3 invocations with attempts = 3
(the sleep duration wraps negative first), not after 5 invocations with
attempts = 5 as the claim states. -/
theorem max_attempt_overflow_cex :
    doRun false (mkBackoff (2 ^ 62) 5) true (fun _ => some 1) 10 =
      some ⟨3, some (.retryExhausted (some 1)), 3⟩
    ∧ (doRun false (mkBackoff (2 ^ 62) 5) true (fun _ => some 1) 10).map
        (fun o => (o.attempts, o.calls)) ≠ some (5, 5) := by
  decide

/-- C4 (amended): for every maxAttempt n > 0 and every operation that never
satisfies the stop predicate, provided no sleep duration wraps negative
during the first n - 1 waits, the run makes exactly n invocations and
returns attempts = n with a retry-exhausted error wrapping the last
operation error when one exists; with maxAttempt = 0 the ceiling never
fires (the run does not terminate on it). -/
theorem max_attempt_exhaustion (retry : Bool) (f : Nat → Option Nat) (iv : Int)
    (hstop : ∀ i, stopCond retry (f i) = false) :
    (∀ n fuel : Nat, 1 ≤ n → n ≤ fuel →
        (∀ i, i + 1 < n → 0 ≤ wrap64 (fibNth (i + 1) * iv)) →
        doRun false (mkBackoff iv n) retry f fuel =
          some ⟨n, some (.retryExhausted (f n)), n⟩)
    ∧ ∀ fuel : Nat, (∀ i, i < fuel → 0 ≤ wrap64 (fibNth (i + 1) * iv)) →
        doRun false (mkBackoff iv 0) retry f fuel = none := by
  constructor
  · intro n fuel h1 hfuel hov
    have base := runLoop_hits_ceiling retry f n iv hstop n fibInit 0 1 fuel h1
      (by omega) hfuel (fun i hi => hov i hi)
    rw [show 1 + n - 1 = n by omega] at base
    exact base
  · intro fuel hov
    exact runLoop_unbounded_no_ceiling retry f iv hstop fuel fibInit 0 1
      (fun i hi => hov i hi)

theorem max_attempt_exhaustion_witness :
    doRun false (mkBackoff 1 2) true (fun _ => some 1) 2 =
      some ⟨2, some (.retryExhausted (some 1)), 2⟩
    ∧ doRun false (mkBackoff 1 0) true (fun _ => some 1) 3 = none :=
  ⟨(max_attempt_exhaustion true (fun _ => some 1) 1 (fun _ => rfl)).1 2 2
      (by decide) (by decide)
      (by intro i hi
          have : i = 0 := by omega
          subst this
          decide),
   (max_attempt_exhaustion true (fun _ => some 1) 1 (fun _ => rfl)).2 3
      (by decide)⟩

set_option maxRecDepth 4000 in
/-- C7 (counterexample): the 93rd call of the sequence generator does not
return the 93rd Fibonacci number: the 64-bit duration arithmetic wraps
negative there. -/
theorem fib_wraps_at_93_cex : fibNth 93 ≠ (Nat.fib 93 : Int) := by decide

set_option maxRecDepth 4000 in
/-- C7 (amended): for every n with 1 <= n <= 92, the nth call to the
sequence generator returns the nth Fibonacci number of the progression
1, 1, 2, 3, 5, 8, ...; beyond that the 64-bit arithmetic wraps. -/
theorem fib_nth_call : ∀ n : Nat, n ≤ 92 → 1 ≤ n → fibNth n = (Nat.fib n : Int) := by
  decide

theorem fib_nth_call_witness :
    (10 : Nat) ≤ 92 ∧ 1 ≤ (10 : Nat) ∧ fibNth 10 = (Nat.fib 10 : Int) :=
  ⟨by decide, by decide, fib_nth_call 10 (by decide) (by decide)⟩
